import Mathlib

/-!
Shallow embedding of the shared-memory queue from `shmemq.c` (repository
goldshtn/shmemq-blog), together with proofs about its ring-buffer
operations, its creation/teardown paths, and its index invariants.

Modelling conventions:
* `unsigned long` counters are natural numbers with arithmetic taken
  modulo `2^64` exactly where the C code overflows;
* the `int len` parameters are integers, and the C comparison
  `len != self->element_size` (which converts `len` to `unsigned int`)
  is modelled by reducing `len` modulo `2^32`;
* the payload array and caller buffers are functions `ℕ → ℕ` (byte at
  offset), and `memcpy` is an explicit pointwise overwrite;
* the OS calls made by `shmemq_new` / `shmemq_destroy` are modelled by an
  explicit oracle recording each call's outcome, and the results record
  which cleanup actions the code performs.
-/

/-- `2^64`, the modulus of C `unsigned long` arithmetic on the platform. -/
def W64 : ℕ := 2 ^ 64

/-- `2^32`, the modulus of C `unsigned int` arithmetic. -/
def U32 : ℕ := 2 ^ 32

/-- C conversion of an `int` to `unsigned int` (usual arithmetic conversion
performed by `len != self->element_size`). -/
def intToUInt (len : ℤ) : ℕ := (len % (U32 : ℤ)).toNat

/-- C conversion of an `int` to `size_t` (performed by `memcpy(_, _, len)`). -/
def intToSize (len : ℤ) : ℕ := (len % (W64 : ℤ)).toNat

/-- C `unsigned long` subtraction `a - b` (wraps modulo `2^64`). -/
def usub64 (a b : ℕ) : ℕ := (a + (W64 - b % W64)) % W64

/-- C `unsigned long` addition `a + b` (wraps modulo `2^64`). -/
def wadd64 (a b : ℕ) : ℕ := (a + b) % W64

/-- `memcpy(dst + off, src, n)`: bytes `[off, off+n)` of `dst` are replaced
by `src[0..n)`; everything else is untouched. -/
def memcpy (dst : ℕ → ℕ) (off : ℕ) (src : ℕ → ℕ) (n : ℕ) : ℕ → ℕ :=
  fun i => if off ≤ i ∧ i < off + n then src (i - off) else dst i

/-- The shared segment header `struct shmemq_info`: the two cursor fields and
the flat data array (the pthread mutex has no bearing on the sequential
semantics; lock acquisition is recorded per call in the operation results). -/
structure ShmemqInfo where
  read_index : ℕ
  write_index : ℕ
  data : ℕ → ℕ

/-- The process-local handle `struct _shmemq` (the fields that determine the
queue semantics; `name`/`shmem_fd` only matter for lifecycle bookkeeping). -/
structure Shmemq where
  max_count : ℕ
  element_size : ℕ
  max_size : ℕ
  mmap_size : ℕ

/-- The handle fields exactly as `shmemq_new` computes them (lines 40-44):
`max_size = max_count * element_size` and
`mmap_size = max_size + sizeof(struct shmemq_info) - 1`, both in
`unsigned long` arithmetic.  `hdr` stands for the platform's
`sizeof(struct shmemq_info)` (64 on x86-64 glibc). -/
def mkShmemq (mc es hdr : ℕ) : Shmemq :=
  { max_count := mc
    element_size := es
    max_size := mc * es % W64
    mmap_size := (mc * es % W64 + (hdr - 1)) % W64 }

/-- A freshly initialized header: `read_index = write_index = 0`, data bytes
arbitrary (whatever the newly created object contains). -/
def freshInfo (d0 : ℕ → ℕ) : ShmemqInfo :=
  { read_index := 0, write_index := 0, data := d0 }

/-- Result of `shmemq_try_enqueue`: return value, header state after the
call, and whether the call acquired the shared lock. -/
structure EnqResult where
  ok : Bool
  mem : ShmemqInfo
  lockTaken : Bool

/-- `shmemq_try_enqueue` (lines 92-109): reject a length whose `unsigned`
conversion differs from `element_size` without locking; under the lock,
fail if `write_index - read_index >= max_size`; otherwise copy the payload
to `data[write_index % max_size]` and advance `write_index` by
`element_size`. -/
def shmemq_try_enqueue (q : Shmemq) (m : ShmemqInfo) (element : ℕ → ℕ)
    (len : ℤ) : EnqResult :=
  if intToUInt len ≠ q.element_size then
    { ok := false, mem := m, lockTaken := false }
  else if q.max_size ≤ usub64 m.write_index m.read_index then
    { ok := false, mem := m, lockTaken := true }
  else
    { ok := true
      mem :=
        { read_index := m.read_index
          write_index := wadd64 m.write_index q.element_size
          data := memcpy m.data (m.write_index % q.max_size) element
                    (intToSize len) }
      lockTaken := true }

/-- Result of `shmemq_try_dequeue`: return value, header state, the caller's
output buffer after the call, and whether the lock was acquired. -/
structure DeqResult where
  ok : Bool
  mem : ShmemqInfo
  out : ℕ → ℕ
  lockTaken : Bool

/-- `shmemq_try_dequeue` (lines 111-128): reject a mismatched length without
locking; under the lock, fail if `read_index >= write_index`; otherwise copy
`len` bytes from `data[read_index % max_size]` into the caller's buffer and
advance `read_index` by `element_size`. -/
def shmemq_try_dequeue (q : Shmemq) (m : ShmemqInfo) (out : ℕ → ℕ)
    (len : ℤ) : DeqResult :=
  if intToUInt len ≠ q.element_size then
    { ok := false, mem := m, out := out, lockTaken := false }
  else if m.write_index ≤ m.read_index then
    { ok := false, mem := m, out := out, lockTaken := true }
  else
    { ok := true
      mem := { m with read_index := wadd64 m.read_index q.element_size }
      out := memcpy out 0 (fun i => m.data (m.read_index % q.max_size + i))
               (intToSize len)
      lockTaken := true }

/-- Well-formed handle configuration: a nonzero element size that fits in
`unsigned int`, and a byte capacity `max_count * element_size` computed
without `unsigned long` overflow. -/
def QWF (q : Shmemq) : Prop :=
  0 < q.element_size ∧ q.element_size < U32 ∧
    q.max_size = q.max_count * q.element_size ∧ q.max_size < W64

instance (q : Shmemq) : Decidable (QWF q) := by
  unfold QWF; infer_instance

/-! ### Lifecycle: `shmemq_new` and `shmemq_destroy` -/

/-- Outcome of the first `shm_open(name, O_RDWR)` call. -/
inductive OpenRW
  | fd (n : ℕ)
  | enoent
  | othererr

/-- Oracle for the OS calls issued by one `shmemq_new` invocation, plus the
pre-existing contents of the mapped region. -/
structure OSOracle where
  openExisting : OpenRW
  openCreate : Option ℕ
  ftruncateOk : Bool
  mmapOk : Bool
  initialMem : ShmemqInfo

/-- Everything observable about one `shmemq_new` call: the returned handle
(`none` = `NULL`), the mapped header contents on success, whether this call
created the object, whether it initialized the mutex, and which cleanup
actions its `FAIL` path performed. -/
structure NewResult where
  handle : Option Shmemq
  mem : Option ShmemqInfo
  created : Bool
  mutexInitialized : Bool
  closedFd : Bool
  unlinked : Bool
  freedName : Bool
  freedSelf : Bool

/-- The `FAIL` block of `shmemq_new` (lines 82-89): close and `shm_unlink`
whenever `shmem_fd != -1`, then free the name and the handle. -/
def shmemqNewFail (fdOpened : Bool) (created : Bool) : NewResult :=
  { handle := none
    mem := none
    created := created
    mutexInitialized := false
    closedFd := fdOpened
    unlinked := fdOpened
    freedName := true
    freedSelf := true }

/-- `shmemq_new` (lines 35-90): open (or create on `ENOENT`) the shared
object, `ftruncate` it when freshly created, map it, and initialize the
header exactly when this call created the object.  Any failure jumps to the
`FAIL` block. -/
def shmemq_new (mc es hdr : ℕ) (os : OSOracle) : NewResult :=
  let success : ℕ → Bool → NewResult := fun _fd created =>
    if created && !os.ftruncateOk then shmemqNewFail true created
    else if !os.mmapOk then shmemqNewFail true created
    else
      { handle := some (mkShmemq mc es hdr)
        mem := some (if created then
            { os.initialMem with read_index := 0, write_index := 0 }
          else os.initialMem)
        created := created
        mutexInitialized := created
        closedFd := false
        unlinked := false
        freedName := false
        freedSelf := false }
  match os.openExisting with
  | OpenRW.fd n => success n false
  | OpenRW.othererr => shmemqNewFail false false
  | OpenRW.enoent =>
    match os.openCreate with
    | none => shmemqNewFail false false
    | some n => success n true

/-- Everything observable about one `shmemq_destroy` call. -/
structure DestroyResult where
  munmapLen : ℕ
  closedFd : Bool
  unlinked : Bool
  freedName : Bool
  freedSelf : Bool

/-- `shmemq_destroy` (lines 130-138): `munmap(self->mem, self->max_size)`,
`close(self->shmem_fd)`, `shm_unlink` only when the `unlink` flag is
nonzero, then free the name and the handle. -/
def shmemq_destroy (q : Shmemq) (unlink : ℤ) : DestroyResult :=
  { munmapLen := q.max_size
    closedFd := true
    unlinked := if unlink = 0 then false else true
    freedName := true
    freedSelf := true }

/-! ### Arithmetic helper lemmas -/

theorem W64_pos : 0 < W64 := by norm_num [W64]

theorem usub64_self (a : ℕ) (ha : a < W64) : usub64 a a = 0 := by
  unfold usub64
  rw [Nat.mod_eq_of_lt ha]
  have h1 : a + (W64 - a) = W64 := by omega
  rw [h1, Nat.mod_self]

theorem usub64_of_eq_add (r d : ℕ) (hr : r < W64) (hd : d < W64) :
    usub64 ((r + d) % W64) r = d := by
  unfold usub64
  rw [Nat.mod_eq_of_lt hr, Nat.mod_add_mod]
  have h1 : r + d + (W64 - r) = d + W64 := by omega
  rw [h1, Nat.add_mod_right, Nat.mod_eq_of_lt hd]

theorem usub64_zero_right (a : ℕ) (h : a < W64) : usub64 a 0 = a := by
  unfold usub64
  rw [Nat.zero_mod, Nat.sub_zero, Nat.add_mod_right, Nat.mod_eq_of_lt h]

theorem usub64_of_le (a b : ℕ) (hba : b ≤ a) (ha : a < W64) :
    usub64 a b = a - b := by
  unfold usub64
  have hb : b < W64 := lt_of_le_of_lt hba ha
  rw [Nat.mod_eq_of_lt hb]
  have h1 : a + (W64 - b) = (a - b) + W64 := by omega
  rw [h1, Nat.add_mod_right, Nat.mod_eq_of_lt (by omega)]

theorem intToUInt_coe (e : ℕ) (he : e < U32) : intToUInt (e : ℤ) = e := by
  unfold intToUInt
  rw [Int.emod_eq_of_lt (by positivity) (by exact_mod_cast he)]
  exact Int.toNat_natCast e

theorem intToSize_coe (e : ℕ) (he : e < U32) : intToSize (e : ℤ) = e := by
  unfold intToSize
  have h : (e : ℤ) < (W64 : ℤ) := by
    have : (U32 : ℤ) ≤ (W64 : ℤ) := by norm_num [U32, W64]
    omega
  rw [Int.emod_eq_of_lt (by positivity) h]
  exact Int.toNat_natCast e

theorem memcpy_inside (dst src : ℕ → ℕ) (off n i : ℕ) (hi : i < n) :
    memcpy dst off src n (off + i) = src i := by
  unfold memcpy
  rw [if_pos ⟨Nat.le_add_right _ _, by omega⟩, Nat.add_sub_cancel_left]

theorem memcpy_below (dst src : ℕ → ℕ) (off n x : ℕ) (hx : x < off) :
    memcpy dst off src n x = dst x := by
  unfold memcpy
  rw [if_neg]; omega

theorem memcpy_at_zero (dst src : ℕ → ℕ) (n i : ℕ) (hi : i < n) :
    memcpy dst 0 src n i = src i := by
  unfold memcpy
  rw [if_pos ⟨Nat.zero_le i, by omega⟩, Nat.sub_zero]

/-! ### Failed operations change nothing -/

theorem enqueue_fail_frame (q : Shmemq) (m : ShmemqInfo) (p : ℕ → ℕ) (len : ℤ)
    (h : (shmemq_try_enqueue q m p len).ok = false) :
    (shmemq_try_enqueue q m p len).mem = m := by
  by_cases h1 : intToUInt len ≠ q.element_size
  · simp [shmemq_try_enqueue, h1]
  · by_cases h2 : q.max_size ≤ usub64 m.write_index m.read_index
    · simp [shmemq_try_enqueue, h1, h2]
    · simp [shmemq_try_enqueue, h1, h2] at h

theorem dequeue_fail_frame (q : Shmemq) (m : ShmemqInfo) (out : ℕ → ℕ) (len : ℤ)
    (h : (shmemq_try_dequeue q m out len).ok = false) :
    (shmemq_try_dequeue q m out len).mem = m ∧
      (shmemq_try_dequeue q m out len).out = out := by
  by_cases h1 : intToUInt len ≠ q.element_size
  · simp [shmemq_try_dequeue, h1]
  · by_cases h2 : m.write_index ≤ m.read_index
    · simp [shmemq_try_dequeue, h1, h2]
    · simp [shmemq_try_dequeue, h1, h2] at h

/-! ### Claim C5: length rejection -/

/-- C5 (amended): a `try_enqueue`/`try_dequeue` call whose declared length,
after C's `int` → `unsigned int` conversion (reduction modulo `2^32`),
differs from the handle's `element_size` returns false without taking the
lock and with zero side effects: indices, payload array and the caller's
output buffer are all unchanged. -/
theorem c5_length_rejection (q : Shmemq) (m : ShmemqInfo) (p out : ℕ → ℕ)
    (len : ℤ) (h : intToUInt len ≠ q.element_size) :
    shmemq_try_enqueue q m p len =
      { ok := false, mem := m, lockTaken := false } ∧
    shmemq_try_dequeue q m out len =
      { ok := false, mem := m, out := out, lockTaken := false } := by
  constructor
  · unfold shmemq_try_enqueue
    rw [if_pos h]
  · unfold shmemq_try_dequeue
    rw [if_pos h]

/-- Witness for C5: a call with length 5 on a handle with `element_size = 1`
is rejected with no lock and no state change. -/
theorem c5_length_rejection_witness :
    intToUInt 5 ≠ (mkShmemq 2 1 64).element_size ∧
    (shmemq_try_enqueue (mkShmemq 2 1 64) (freshInfo fun _ => 0)
        (fun _ => 3) 5 =
      { ok := false, mem := freshInfo fun _ => 0, lockTaken := false } ∧
    shmemq_try_dequeue (mkShmemq 2 1 64) (freshInfo fun _ => 0)
        (fun _ => 0) 5 =
      { ok := false, mem := freshInfo fun _ => 0, out := fun _ => 0,
        lockTaken := false }) :=
  ⟨by decide, c5_length_rejection _ _ _ _ _ (by decide)⟩

/-- C5 counterexample: with `element_size = 2^32 - 1`, a call declaring
length `-1` differs from `element_size` as an integer, yet the C comparison
`len != self->element_size` converts `-1` to `2^32 - 1`, so the call is not
rejected: on an empty queue it returns true, not false. -/
theorem c5_counterexample :
    ((-1 : ℤ) ≠ ((mkShmemq 1 4294967295 64).element_size : ℤ)) ∧
    (shmemq_try_enqueue (mkShmemq 1 4294967295 64) (freshInfo fun _ => 0)
        (fun _ => 0) (-1)).ok = true := by
  decide

/-! ### Claim C6: cleanup on shmemq_new failure -/

/-- Oracle describing a run in which the shared object already exists (the
first `shm_open` returns fd 3, so `created` stays false) and `mmap` fails. -/
def attachMmapFailOracle : OSOracle :=
  { openExisting := OpenRW.fd 3
    openCreate := none
    ftruncateOk := true
    mmapOk := false
    initialMem := freshInfo fun _ => 0 }

/-- C6 (code bug): when `shmemq_new` merely attaches to a pre-existing
object (`created = false`) and `mmap` then fails, the `FAIL` path still
calls `shm_unlink`, removing a shared object this call did not create —
contradicting the claim that the object is removed only if this call just
created it.  The descriptor is closed and the local allocations are freed,
and no handle is returned, as claimed. -/
theorem c6_new_unlinks_preexisting_object :
    (shmemq_new 4 8 64 attachMmapFailOracle).handle = none ∧
    (shmemq_new 4 8 64 attachMmapFailOracle).created = false ∧
    (shmemq_new 4 8 64 attachMmapFailOracle).unlinked = true ∧
    (shmemq_new 4 8 64 attachMmapFailOracle).closedFd = true ∧
    (shmemq_new 4 8 64 attachMmapFailOracle).freedName = true ∧
    (shmemq_new 4 8 64 attachMmapFailOracle).freedSelf = true :=
  ⟨rfl, rfl, rfl, rfl, rfl, rfl⟩

/-! ### Claim C7: initialization happens exactly on creation -/

/-- C7: a successful `shmemq_new` constructs the mutex if and only if this
call created the object; on creation it zeroes `read_index`/`write_index`
in the mapped header, and an attaching call returns the header exactly as
it found it, performing no initialization at all. -/
theorem c7_new_initializes_iff_created (mc es hdr : ℕ) (os : OSOracle)
    (h : (shmemq_new mc es hdr os).handle.isSome = true) :
    (shmemq_new mc es hdr os).mutexInitialized =
      (shmemq_new mc es hdr os).created ∧
    ((shmemq_new mc es hdr os).created = true →
      (shmemq_new mc es hdr os).mem =
        some { os.initialMem with read_index := 0, write_index := 0 }) ∧
    ((shmemq_new mc es hdr os).created = false →
      (shmemq_new mc es hdr os).mem = some os.initialMem) := by
  rcases os with ⟨oe, oc, ft, mm, im⟩
  cases oe <;> cases oc <;> cases ft <;> cases mm <;>
    simp [shmemq_new, shmemqNewFail] at h ⊢

/-- Oracle for a successful attach: the object exists and `mmap` succeeds;
the header already holds nonzero indices written by the creator. -/
def attachOkOracle : OSOracle :=
  { openExisting := OpenRW.fd 3
    openCreate := none
    ftruncateOk := true
    mmapOk := true
    initialMem := { read_index := 8, write_index := 16, data := fun _ => 1 } }

/-- Witness for C7: a successful attaching call leaves the header's nonzero
indices untouched and does not construct the mutex. -/
theorem c7_new_initializes_iff_created_witness :
    (shmemq_new 4 8 64 attachOkOracle).handle.isSome = true ∧
    ((shmemq_new 4 8 64 attachOkOracle).mutexInitialized =
      (shmemq_new 4 8 64 attachOkOracle).created ∧
    ((shmemq_new 4 8 64 attachOkOracle).created = true →
      (shmemq_new 4 8 64 attachOkOracle).mem =
        some { attachOkOracle.initialMem with
                 read_index := 0, write_index := 0 }) ∧
    ((shmemq_new 4 8 64 attachOkOracle).created = false →
      (shmemq_new 4 8 64 attachOkOracle).mem =
        some attachOkOracle.initialMem)) :=
  ⟨rfl, c7_new_initializes_iff_created 4 8 64 attachOkOracle rfl⟩

/-! ### Claim C8: teardown -/

/-- C8 (code bug): for a handle with `max_count = 512`, `element_size = 8`
(so `max_size = 4096`) on a platform where `sizeof(struct shmemq_info)` is
64, the mapping was created with length `mmap_size = 4159`, but
`shmemq_destroy` passes `max_size = 4096` to `munmap` — it does not unmap
the entire mapped region.  The descriptor is closed regardless of the
`unlink` flag and the object is unlinked exactly when the flag is nonzero,
as claimed. -/
theorem c8_destroy_munmap_length :
    (shmemq_destroy (mkShmemq 512 8 64) 0).munmapLen = 4096 ∧
    (mkShmemq 512 8 64).mmap_size = 4159 ∧
    (shmemq_destroy (mkShmemq 512 8 64) 0).munmapLen ≠
      (mkShmemq 512 8 64).mmap_size ∧
    (shmemq_destroy (mkShmemq 512 8 64) 0).closedFd = true ∧
    (shmemq_destroy (mkShmemq 512 8 64) 0).unlinked = false ∧
    (shmemq_destroy (mkShmemq 512 8 64) 1).munmapLen = 4096 ∧
    (shmemq_destroy (mkShmemq 512 8 64) 1).closedFd = true ∧
    (shmemq_destroy (mkShmemq 512 8 64) 1).unlinked = true := by
  decide

/-! ### Claim C10: failed operations have no side effects -/

/-- C10: whenever `try_enqueue` or `try_dequeue` returns false — length
mismatch, queue full, or queue empty — the entire shared state (both
indices and the payload array) is unchanged, and a failed `try_dequeue`
additionally leaves the caller's output buffer unchanged. -/
theorem c10_failed_ops_leave_state_unchanged (q : Shmemq)
    (m1 m2 : ShmemqInfo) (p out : ℕ → ℕ) (len1 len2 : ℤ)
    (hE : (shmemq_try_enqueue q m1 p len1).ok = false)
    (hD : (shmemq_try_dequeue q m2 out len2).ok = false) :
    (shmemq_try_enqueue q m1 p len1).mem = m1 ∧
    (shmemq_try_dequeue q m2 out len2).mem = m2 ∧
    (shmemq_try_dequeue q m2 out len2).out = out :=
  ⟨enqueue_fail_frame q m1 p len1 hE,
   (dequeue_fail_frame q m2 out len2 hD).1,
   (dequeue_fail_frame q m2 out len2 hD).2⟩

/-- Witness for C10: a mismatched-length enqueue and an empty-queue dequeue
both fail and change nothing. -/
theorem c10_failed_ops_leave_state_unchanged_witness :
    (shmemq_try_enqueue (mkShmemq 2 1 64) (freshInfo fun _ => 0)
        (fun _ => 3) 7).ok = false ∧
    (shmemq_try_dequeue (mkShmemq 2 1 64) (freshInfo fun _ => 0)
        (fun _ => 0) 1).ok = false ∧
    ((shmemq_try_enqueue (mkShmemq 2 1 64) (freshInfo fun _ => 0)
        (fun _ => 3) 7).mem = freshInfo fun _ => 0) ∧
    ((shmemq_try_dequeue (mkShmemq 2 1 64) (freshInfo fun _ => 0)
        (fun _ => 0) 1).mem = freshInfo fun _ => 0) ∧
    ((shmemq_try_dequeue (mkShmemq 2 1 64) (freshInfo fun _ => 0)
        (fun _ => 0) 1).out = fun _ => 0) := by
  refine ⟨by decide, by decide, ?_⟩
  have h := c10_failed_ops_leave_state_unchanged (mkShmemq 2 1 64)
    (freshInfo fun _ => 0) (freshInfo fun _ => 0) (fun _ => 3) (fun _ => 0)
    7 1 (by decide) (by decide)
  exact ⟨h.1, h.2.1, h.2.2⟩

/-! ### Characterizations of the four operation outcomes (correct length) -/

theorem enqueue_success (q : Shmemq) (m : ShmemqInfo) (p : ℕ → ℕ)
    (hU : q.element_size < U32)
    (h : usub64 m.write_index m.read_index < q.max_size) :
    shmemq_try_enqueue q m p (q.element_size : ℤ) =
      { ok := true
        mem := { read_index := m.read_index
                 write_index := wadd64 m.write_index q.element_size
                 data := memcpy m.data (m.write_index % q.max_size) p
                           q.element_size }
        lockTaken := true } := by
  unfold shmemq_try_enqueue
  rw [intToUInt_coe _ hU, intToSize_coe _ hU,
    if_neg (fun hh => hh rfl), if_neg (not_le_of_lt h)]

theorem enqueue_full (q : Shmemq) (m : ShmemqInfo) (p : ℕ → ℕ)
    (hU : q.element_size < U32)
    (h : q.max_size ≤ usub64 m.write_index m.read_index) :
    shmemq_try_enqueue q m p (q.element_size : ℤ) =
      { ok := false, mem := m, lockTaken := true } := by
  unfold shmemq_try_enqueue
  rw [intToUInt_coe _ hU, if_neg (fun hh => hh rfl), if_pos h]

theorem dequeue_success (q : Shmemq) (m : ShmemqInfo) (out : ℕ → ℕ)
    (hU : q.element_size < U32) (h : m.read_index < m.write_index) :
    shmemq_try_dequeue q m out (q.element_size : ℤ) =
      { ok := true
        mem := { m with read_index := wadd64 m.read_index q.element_size }
        out := memcpy out 0 (fun i => m.data (m.read_index % q.max_size + i))
                 q.element_size
        lockTaken := true } := by
  unfold shmemq_try_dequeue
  rw [intToUInt_coe _ hU, intToSize_coe _ hU,
    if_neg (fun hh => hh rfl), if_neg (not_le_of_lt h)]

theorem dequeue_empty (q : Shmemq) (m : ShmemqInfo) (out : ℕ → ℕ)
    (hU : q.element_size < U32) (h : m.write_index ≤ m.read_index) :
    shmemq_try_dequeue q m out (q.element_size : ℤ) =
      { ok := false, mem := m, out := out, lockTaken := true } := by
  unfold shmemq_try_dequeue
  rw [intToUInt_coe _ hU, if_neg (fun hh => hh rfl), if_pos h]

/-! ### Claim C3: round trip -/

/-- C3 (amended): on an *empty* queue (`read_index = write_index`, counters
not on the point of wrapping), enqueueing a payload `P` of exactly
`element_size` bytes and then dequeueing once returns true both times, and
the dequeued bytes are exactly `P`, unchanged. -/
theorem c3_roundtrip_empty (q : Shmemq) (hwf : QWF q)
    (hmc : 0 < q.max_count) (m : ShmemqInfo)
    (hempty : m.read_index = m.write_index)
    (hnw : m.write_index + q.element_size < W64) (P out0 : ℕ → ℕ) :
    (shmemq_try_enqueue q m P (q.element_size : ℤ)).ok = true ∧
    (shmemq_try_dequeue q (shmemq_try_enqueue q m P (q.element_size : ℤ)).mem
        out0 (q.element_size : ℤ)).ok = true ∧
    ∀ i, i < q.element_size →
      (shmemq_try_dequeue q
          (shmemq_try_enqueue q m P (q.element_size : ℤ)).mem
          out0 (q.element_size : ℤ)).out i = P i := by
  obtain ⟨he, heU, hsz, hszW⟩ := hwf
  have hms : 0 < q.max_size := by
    rw [hsz]; exact Nat.mul_pos hmc he
  have hvW : m.write_index < W64 := by omega
  have husub : usub64 m.write_index m.read_index = 0 := by
    rw [hempty]; exact usub64_self _ hvW
  have hE := enqueue_success q m P heU (by rw [husub]; exact hms)
  have hwadd : wadd64 m.write_index q.element_size =
      m.write_index + q.element_size := by
    unfold wadd64; exact Nat.mod_eq_of_lt hnw
  have hD := dequeue_success q (shmemq_try_enqueue q m P
      (q.element_size : ℤ)).mem out0 heU (by rw [hE]; simp [hwadd, hempty]; omega)
  refine ⟨by rw [hE], by rw [hD], ?_⟩
  intro i hi
  rw [hD, hE]
  simp only [DeqResult.out, EnqResult.mem]
  calc memcpy out0 0
        (fun j => (memcpy m.data (m.write_index % q.max_size) P
            q.element_size) (m.read_index % q.max_size + j))
        q.element_size i
      = (memcpy m.data (m.write_index % q.max_size) P q.element_size)
          (m.read_index % q.max_size + i) := memcpy_at_zero _ _ _ i hi
    _ = P i := by
        rw [hempty]; exact memcpy_inside _ _ _ _ i hi

/-- C3 counterexample queue: capacity 2, element size 1. -/
def c3Queue : Shmemq := mkShmemq 2 1 64

/-- C3 counterexample pre-state: one element (byte 5) already enqueued, so
the queue is non-full but not empty. -/
def c3Pre : ShmemqInfo :=
  (shmemq_try_enqueue c3Queue (freshInfo fun _ => 0) (fun _ => 5) 1).mem

/-- C3 counterexample enqueue of the payload `P` (byte 9). -/
def c3AfterEnq : EnqResult := shmemq_try_enqueue c3Queue c3Pre (fun _ => 9) 1

/-- C3 counterexample dequeue following the enqueue of `P`. -/
def c3AfterDeq : DeqResult :=
  shmemq_try_dequeue c3Queue c3AfterEnq.mem (fun _ => 0) 1

/-- C3 counterexample: on a non-full (but non-empty) queue, enqueueing `P`
(byte 9) and then dequeueing once returns true both times, but the dequeued
byte is 5 — the oldest element — not `P`: the claim's "non-full queue"
precondition is too weak. -/
theorem c3_counterexample :
    usub64 c3Pre.write_index c3Pre.read_index < c3Queue.max_size ∧
    c3AfterEnq.ok = true ∧
    c3AfterDeq.ok = true ∧
    c3AfterDeq.out 0 = 5 ∧
    ¬ c3AfterDeq.out 0 = 9 := by
  decide

/-- Witness for C3 (amended): on an empty queue with capacity 2 and element
size 1, the round trip returns the enqueued byte 9 unchanged. -/
theorem c3_roundtrip_empty_witness :
    QWF (mkShmemq 2 1 64) ∧ 0 < (mkShmemq 2 1 64).max_count ∧
    (freshInfo fun _ => 0).read_index = (freshInfo fun _ => 0).write_index ∧
    (freshInfo fun _ => 0).write_index + (mkShmemq 2 1 64).element_size <
      W64 ∧
    ((shmemq_try_enqueue (mkShmemq 2 1 64) (freshInfo fun _ => 0)
        (fun _ => 9) ((mkShmemq 2 1 64).element_size : ℤ)).ok = true ∧
    (shmemq_try_dequeue (mkShmemq 2 1 64)
        (shmemq_try_enqueue (mkShmemq 2 1 64) (freshInfo fun _ => 0)
          (fun _ => 9) ((mkShmemq 2 1 64).element_size : ℤ)).mem
        (fun _ => 0) ((mkShmemq 2 1 64).element_size : ℤ)).ok = true ∧
    ∀ i, i < (mkShmemq 2 1 64).element_size →
      (shmemq_try_dequeue (mkShmemq 2 1 64)
          (shmemq_try_enqueue (mkShmemq 2 1 64) (freshInfo fun _ => 0)
            (fun _ => 9) ((mkShmemq 2 1 64).element_size : ℤ)).mem
          (fun _ => 0) ((mkShmemq 2 1 64).element_size : ℤ)).out i =
        (fun _ => 9) i) :=
  ⟨by decide, by decide, rfl, by decide,
   c3_roundtrip_empty (mkShmemq 2 1 64) (by decide) (by decide)
     (freshInfo fun _ => 0) rfl (by decide) (fun _ => 9) (fun _ => 0)⟩

/-! ### Claim C1: FIFO order -/

/-- Enqueue a list of payloads one after another (each call declaring the
correct length); returns whether every call succeeded, and the final
header state. -/
def enqList (q : Shmemq) (m : ShmemqInfo) (ps : List (ℕ → ℕ)) :
    Bool × ShmemqInfo :=
  match ps with
  | [] => (true, m)
  | p :: rest =>
    let r := shmemq_try_enqueue q m p (q.element_size : ℤ)
    let t := enqList q r.mem rest
    (r.ok && t.1, t.2)

/-- Running `enqList` from a state holding `k` elements at slots
`0, …, k-1` (indices `read = 0`, `write = k * element_size`) succeeds
entirely while `k + |ps| ≤ max_count`, appends the payloads at the next
slots, and leaves all lower bytes of the array untouched. -/
theorem enqList_spec (q : Shmemq) (hwf : QWF q) :
    ∀ (ps : List (ℕ → ℕ)) (k : ℕ) (m : ShmemqInfo),
      m.read_index = 0 →
      m.write_index = k * q.element_size →
      k + ps.length ≤ q.max_count →
      (enqList q m ps).1 = true ∧
      (enqList q m ps).2.read_index = 0 ∧
      (enqList q m ps).2.write_index = (k + ps.length) * q.element_size ∧
      (∀ j, j < ps.length → ∀ i, i < q.element_size →
        (enqList q m ps).2.data ((k + j) * q.element_size + i) =
          ps.getD j (fun _ => 0) i) ∧
      (∀ x, x < k * q.element_size → (enqList q m ps).2.data x = m.data x) := by
  obtain ⟨he, heU, hsz, hszW⟩ := hwf
  intro ps
  induction ps with
  | nil =>
    intro k m hr hw _
    refine ⟨rfl, hr, by simpa using hw, ?_, fun x _ => rfl⟩
    intro j hj
    exact absurd hj (by simp)
  | cons p rest ih =>
    intro k m hr hw hk
    have hkmc : k < q.max_count := by
      simp only [List.length_cons] at hk; omega
    have hmul1 : (k + 1) * q.element_size ≤ q.max_count * q.element_size :=
      Nat.mul_le_mul_right _ (by omega)
    have hmul2 : k * q.element_size + q.element_size =
        (k + 1) * q.element_size := by ring
    have hwlt : k * q.element_size < q.max_size := by
      rw [hsz, mul_comm q.max_count q.element_size] at *
      omega
    have husub : usub64 m.write_index m.read_index = k * q.element_size := by
      rw [hr, hw]; exact usub64_zero_right _ (by omega)
    have hE := enqueue_success q m p heU (by rw [husub]; exact hwlt)
    have hwadd : wadd64 m.write_index q.element_size =
        (k + 1) * q.element_size := by
      unfold wadd64
      rw [hw, hmul2]
      exact Nat.mod_eq_of_lt (by rw [hsz, mul_comm q.max_count q.element_size] at *; omega)
    have hoff : m.write_index % q.max_size = k * q.element_size := by
      rw [hw]; exact Nat.mod_eq_of_lt hwlt
    have ih2 := ih (k + 1) (shmemq_try_enqueue q m p (q.element_size : ℤ)).mem
      (by rw [hE, hr]) (by rw [hE]; exact hwadd)
      (by simp only [List.length_cons] at hk; omega)
    obtain ⟨hok, hr2, hw2, hdata2, hpres2⟩ := ih2
    have hunfold : enqList q m (p :: rest) =
        ((shmemq_try_enqueue q m p (q.element_size : ℤ)).ok &&
          (enqList q (shmemq_try_enqueue q m p (q.element_size : ℤ)).mem
            rest).1,
         (enqList q (shmemq_try_enqueue q m p (q.element_size : ℤ)).mem
            rest).2) := rfl
    refine ⟨?_, ?_, ?_, ?_, ?_⟩
    · rw [hunfold, hok, hE]
      rfl
    · rw [hunfold]; exact hr2
    · rw [hunfold]
      simp only [hw2, List.length_cons]
      ring_nf
    · rw [hunfold]
      intro j hj i hi
      cases j with
      | zero =>
        have hx : (k + 0) * q.element_size + i < (k + 1) * q.element_size := by
          have hk0 : (k + 0) * q.element_size = k * q.element_size := by ring
          omega
        rw [hpres2 _ hx, hE]
        simp only [EnqResult.mem, List.getD_cons_zero]
        have : (k + 0) * q.element_size + i = k * q.element_size + i := by ring_nf
        rw [this, ← hoff]
        rw [show k * q.element_size = m.write_index % q.max_size from hoff.symm] at this
        exact hoff ▸ memcpy_inside m.data p (m.write_index % q.max_size)
          q.element_size i hi
      | succ j' =>
        simp only [List.length_cons] at hj
        have hj' : j' < rest.length := by omega
        have := hdata2 j' hj' i hi
        have hidx : (k + 1 + j') * q.element_size =
            (k + (j' + 1)) * q.element_size := by ring
        rw [hidx] at this
        simpa using this
    · rw [hunfold]
      intro x hx
      have hx2 : x < (k + 1) * q.element_size := by omega
      rw [hpres2 _ hx2, hE]
      simp only [EnqResult.mem]
      rw [hoff]
      exact memcpy_below m.data p _ _ x hx

/-- One dequeue step (correct length, scratch output buffer): the header
state after `shmemq_try_dequeue`. -/
def deqStep (q : Shmemq) (m : ShmemqInfo) : ShmemqInfo :=
  (shmemq_try_dequeue q m (fun _ => 0) (q.element_size : ℤ)).mem

/-- Iterating `deqStep` from a state holding `n ≤ max_count` elements
advances `read_index` one slot per step and touches nothing else. -/
theorem deqStep_iterate (q : Shmemq) (hwf : QWF q) (n : ℕ)
    (hn : n ≤ q.max_count) (m1 : ShmemqInfo) (hr : m1.read_index = 0)
    (hw : m1.write_index = n * q.element_size) :
    ∀ j, j ≤ n → (deqStep q)^[j] m1 =
      { m1 with read_index := j * q.element_size } := by
  obtain ⟨he, heU, hsz, hszW⟩ := hwf
  intro j
  induction j with
  | zero =>
    intro _
    rw [Function.iterate_zero_apply]
    rw [show (0 : ℕ) * q.element_size = m1.read_index by rw [hr, zero_mul]]
  | succ j' ihj =>
    intro hj
    rw [Function.iterate_succ_apply', ihj (by omega)]
    unfold deqStep
    have hjn : j' < n := by omega
    have hlt : j' * q.element_size < n * q.element_size :=
      (Nat.mul_lt_mul_right he).mpr hjn
    have hD := dequeue_success q { m1 with read_index := j' * q.element_size }
      (fun _ => 0) heU (by simpa [hw] using hlt)
    rw [hD]
    have hwadd : wadd64 (j' * q.element_size) q.element_size =
        (j' + 1) * q.element_size := by
      unfold wadd64
      have h1 : j' * q.element_size + q.element_size =
          (j' + 1) * q.element_size := by ring
      rw [h1]
      refine Nat.mod_eq_of_lt ?_
      have h2 : (j' + 1) * q.element_size ≤ q.max_count * q.element_size :=
        Nat.mul_le_mul_right _ (by omega)
      rw [hsz] at hszW
      omega
    simp only [hwadd]

/-- C1: starting from a fresh (empty) queue, enqueueing any `n ≤ max_count`
payloads succeeds entirely, and the successive dequeues all succeed and
return the payloads in exactly the order they were enqueued (FIFO). -/
theorem c1_fifo_order (q : Shmemq) (hwf : QWF q) (d0 : ℕ → ℕ)
    (ps : List (ℕ → ℕ)) (hn : ps.length ≤ q.max_count) :
    (enqList q (freshInfo d0) ps).1 = true ∧
    ∀ j, j < ps.length →
      (shmemq_try_dequeue q
          ((deqStep q)^[j] (enqList q (freshInfo d0) ps).2)
          (fun _ => 0) (q.element_size : ℤ)).ok = true ∧
      ∀ i, i < q.element_size →
        (shmemq_try_dequeue q
            ((deqStep q)^[j] (enqList q (freshInfo d0) ps).2)
            (fun _ => 0) (q.element_size : ℤ)).out i =
          ps.getD j (fun _ => 0) i := by
  obtain ⟨he, heU, hsz, hszW⟩ := hwf
  obtain ⟨hok, hr1, hw1, hdata, -⟩ :=
    enqList_spec q ⟨he, heU, hsz, hszW⟩ ps 0 (freshInfo d0) rfl
      (by simp [freshInfo]) (by simpa using hn)
  refine ⟨hok, ?_⟩
  intro j hj
  have hiter := deqStep_iterate q ⟨he, heU, hsz, hszW⟩ ps.length hn
    (enqList q (freshInfo d0) ps).2 hr1 (by simpa using hw1) j
    (le_of_lt hj)
  have hlt : j * q.element_size < ps.length * q.element_size :=
    (Nat.mul_lt_mul_right he).mpr hj
  have hw1' : (enqList q (freshInfo d0) ps).2.write_index =
      ps.length * q.element_size := by simpa using hw1
  have hD := dequeue_success q
    { (enqList q (freshInfo d0) ps).2 with read_index := j * q.element_size }
    (fun _ => 0) heU
    (by show j * q.element_size <
          (enqList q (freshInfo d0) ps).2.write_index
        rw [hw1']; exact hlt)
  constructor
  · rw [hiter, hD]
  · intro i hi
    rw [hiter, hD]
    simp only [DeqResult.out]
    have hjlt : j * q.element_size < q.max_size := by
      have h2 : ps.length * q.element_size ≤ q.max_count * q.element_size :=
        Nat.mul_le_mul_right _ hn
      rw [hsz]
      omega
    calc memcpy (fun _ => 0) 0
          (fun i' => (enqList q (freshInfo d0) ps).2.data
            (j * q.element_size % q.max_size + i'))
          q.element_size i
        = (enqList q (freshInfo d0) ps).2.data
            (j * q.element_size % q.max_size + i) :=
          memcpy_at_zero _ _ _ i hi
      _ = ps.getD j (fun _ => 0) i := by
          rw [Nat.mod_eq_of_lt hjlt]
          have := hdata j hj i hi
          simpa using this

/-- Witness for C1: capacity 2, element size 1, payloads 5 then 7 come back
in order 5, 7. -/
theorem c1_fifo_order_witness :
    QWF (mkShmemq 2 1 64) ∧
    ([fun _ => 5, fun _ => 7] : List (ℕ → ℕ)).length ≤
      (mkShmemq 2 1 64).max_count ∧
    ((enqList (mkShmemq 2 1 64) (freshInfo fun _ => 0)
        [fun _ => 5, fun _ => 7]).1 = true ∧
    ∀ j, j < ([fun _ => 5, fun _ => 7] : List (ℕ → ℕ)).length →
      (shmemq_try_dequeue (mkShmemq 2 1 64)
          ((deqStep (mkShmemq 2 1 64))^[j]
            (enqList (mkShmemq 2 1 64) (freshInfo fun _ => 0)
              [fun _ => 5, fun _ => 7]).2)
          (fun _ => 0) ((mkShmemq 2 1 64).element_size : ℤ)).ok = true ∧
      ∀ i, i < (mkShmemq 2 1 64).element_size →
        (shmemq_try_dequeue (mkShmemq 2 1 64)
            ((deqStep (mkShmemq 2 1 64))^[j]
              (enqList (mkShmemq 2 1 64) (freshInfo fun _ => 0)
                [fun _ => 5, fun _ => 7]).2)
            (fun _ => 0) ((mkShmemq 2 1 64).element_size : ℤ)).out i =
          ([fun _ => 5, fun _ => 7] : List (ℕ → ℕ)).getD j (fun _ => 0) i) :=
  ⟨by decide, by decide,
   c1_fifo_order (mkShmemq 2 1 64) (by decide) (fun _ => 0)
     [fun _ => 5, fun _ => 7] (by decide)⟩

/-! ### Claim C2: capacity invariant -/

/-- One same-payload enqueue step with correct length (state only). -/
def enqIter (q : Shmemq) (p : ℕ → ℕ) (m : ShmemqInfo) : ShmemqInfo :=
  (shmemq_try_enqueue q m p (q.element_size : ℤ)).mem

/-- Iterating `enqIter` from a fresh queue keeps `read_index = 0` and
advances `write_index` one slot per step, for up to `max_count` steps. -/
theorem enqIter_indices (q : Shmemq) (hwf : QWF q) (p d0 : ℕ → ℕ) :
    ∀ k, k ≤ q.max_count →
      ((enqIter q p)^[k] (freshInfo d0)).read_index = 0 ∧
      ((enqIter q p)^[k] (freshInfo d0)).write_index =
        k * q.element_size := by
  obtain ⟨he, heU, hsz, hszW⟩ := hwf
  have hszW' : q.max_count * q.element_size < W64 := by rw [← hsz]; exact hszW
  intro k
  induction k with
  | zero =>
    intro _
    exact ⟨rfl, by simp [freshInfo]⟩
  | succ k' ihk =>
    intro hk
    obtain ⟨hr', hw'⟩ := ihk (by omega)
    rw [Function.iterate_succ_apply']
    show (shmemq_try_enqueue q ((enqIter q p)^[k'] (freshInfo d0)) p
        (q.element_size : ℤ)).mem.read_index = 0 ∧
      (shmemq_try_enqueue q ((enqIter q p)^[k'] (freshInfo d0)) p
        (q.element_size : ℤ)).mem.write_index = (k' + 1) * q.element_size
    have hmul : (k' + 1) * q.element_size ≤ q.max_count * q.element_size :=
      Nat.mul_le_mul_right _ hk
    have hmul2 : k' * q.element_size + q.element_size =
        (k' + 1) * q.element_size := by ring
    have hwlt : k' * q.element_size < q.max_size := by rw [hsz]; omega
    have hE := enqueue_success q ((enqIter q p)^[k'] (freshInfo d0)) p heU
      (by rw [hw', hr', usub64_zero_right _ (by omega)]; exact hwlt)
    rw [hE]
    refine ⟨hr', ?_⟩
    show wadd64 ((enqIter q p)^[k'] (freshInfo d0)).write_index
        q.element_size = (k' + 1) * q.element_size
    unfold wadd64
    rw [hw', hmul2]
    exact Nat.mod_eq_of_lt (by omega)

/-- C2: from a fresh queue, each of the first `max_count` enqueues (correct
length) succeeds; the `(max_count+1)`-th returns false; failed enqueues and
dequeues do not change the state (so the enqueue keeps failing while only
failures occur); a dequeue on the full queue succeeds, after which one more
enqueue succeeds. -/
theorem c2_capacity_invariant (q : Shmemq) (hwf : QWF q)
    (hmc : 0 < q.max_count) (d0 p : ℕ → ℕ) :
    (∀ k, k < q.max_count →
      (shmemq_try_enqueue q ((enqIter q p)^[k] (freshInfo d0)) p
          (q.element_size : ℤ)).ok = true) ∧
    (shmemq_try_enqueue q ((enqIter q p)^[q.max_count] (freshInfo d0)) p
        (q.element_size : ℤ)).ok = false ∧
    (∀ m pl len, (shmemq_try_enqueue q m pl len).ok = false →
      (shmemq_try_enqueue q m pl len).mem = m) ∧
    (∀ m o len, (shmemq_try_dequeue q m o len).ok = false →
      (shmemq_try_dequeue q m o len).mem = m) ∧
    (shmemq_try_dequeue q ((enqIter q p)^[q.max_count] (freshInfo d0))
        (fun _ => 0) (q.element_size : ℤ)).ok = true ∧
    (shmemq_try_enqueue q
        (shmemq_try_dequeue q ((enqIter q p)^[q.max_count] (freshInfo d0))
            (fun _ => 0) (q.element_size : ℤ)).mem p
        (q.element_size : ℤ)).ok = true := by
  obtain ⟨he, heU, hsz, hszW⟩ := hwf
  have hszW' : q.max_count * q.element_size < W64 := by rw [← hsz]; exact hszW
  have hU32W : U32 < W64 := by norm_num [U32, W64]
  obtain ⟨hrF, hwF⟩ := enqIter_indices q ⟨he, heU, hsz, hszW⟩ p d0
    q.max_count (le_refl _)
  have husubF : usub64
      ((enqIter q p)^[q.max_count] (freshInfo d0)).write_index
      ((enqIter q p)^[q.max_count] (freshInfo d0)).read_index =
      q.max_size := by
    rw [hrF, hwF, usub64_zero_right _ (by omega), hsz]
  refine ⟨?_, ?_, ?_, ?_, ?_, ?_⟩
  · intro k hk
    obtain ⟨hr', hw'⟩ := enqIter_indices q ⟨he, heU, hsz, hszW⟩ p d0 k
      (le_of_lt hk)
    have hmul : (k + 1) * q.element_size ≤ q.max_count * q.element_size :=
      Nat.mul_le_mul_right _ hk
    have hmul2 : k * q.element_size + q.element_size =
        (k + 1) * q.element_size := by ring
    have hwlt : k * q.element_size < q.max_size := by rw [hsz]; omega
    have hE := enqueue_success q ((enqIter q p)^[k] (freshInfo d0)) p heU
      (by rw [hw', hr', usub64_zero_right _ (by omega)]; exact hwlt)
    rw [hE]
  · have hE := enqueue_full q ((enqIter q p)^[q.max_count] (freshInfo d0)) p
      heU (by rw [husubF])
    rw [hE]
  · exact fun m pl len h => enqueue_fail_frame q m pl len h
  · exact fun m o len h => (dequeue_fail_frame q m o len h).1
  · have hD := dequeue_success q
      ((enqIter q p)^[q.max_count] (freshInfo d0)) (fun _ => 0) heU
      (by rw [hrF, hwF]; exact Nat.mul_pos hmc he)
    rw [hD]
  · have hD := dequeue_success q
      ((enqIter q p)^[q.max_count] (freshInfo d0)) (fun _ => 0) heU
      (by rw [hrF, hwF]; exact Nat.mul_pos hmc he)
    rw [hD]
    have hwadd : wadd64
        ((enqIter q p)^[q.max_count] (freshInfo d0)).read_index
        q.element_size = q.element_size := by
      unfold wadd64
      rw [hrF, Nat.zero_add]
      exact Nat.mod_eq_of_lt (by omega)
    have hle : q.element_size ≤ q.max_count * q.element_size :=
      Nat.le_mul_of_pos_left _ hmc
    have husub2 : usub64
        ((enqIter q p)^[q.max_count] (freshInfo d0)).write_index
        q.element_size = q.max_count * q.element_size - q.element_size := by
      rw [hwF]
      exact usub64_of_le _ _ hle (by omega)
    have hE := enqueue_success q
      { (enqIter q p)^[q.max_count] (freshInfo d0) with
          read_index := wadd64
            ((enqIter q p)^[q.max_count] (freshInfo d0)).read_index
            q.element_size } p heU
      (by show usub64 ((enqIter q p)^[q.max_count] (freshInfo d0)).write_index
            (wadd64 ((enqIter q p)^[q.max_count] (freshInfo d0)).read_index
              q.element_size) < q.max_size
          rw [hwadd, husub2, hsz]
          have hpos : 0 < q.max_count * q.element_size := Nat.mul_pos hmc he
          omega)
    rw [hE]

/-- Witness for C2: capacity 2, element size 1 — two enqueues succeed, the
third fails, a dequeue succeeds, then an enqueue succeeds again. -/
theorem c2_capacity_invariant_witness :
    QWF (mkShmemq 2 1 64) ∧ 0 < (mkShmemq 2 1 64).max_count ∧
    ((∀ k, k < (mkShmemq 2 1 64).max_count →
      (shmemq_try_enqueue (mkShmemq 2 1 64)
          ((enqIter (mkShmemq 2 1 64) fun _ => 9)^[k] (freshInfo fun _ => 0))
          (fun _ => 9) ((mkShmemq 2 1 64).element_size : ℤ)).ok = true) ∧
    (shmemq_try_enqueue (mkShmemq 2 1 64)
        ((enqIter (mkShmemq 2 1 64) fun _ => 9)^[(mkShmemq 2 1 64).max_count]
          (freshInfo fun _ => 0))
        (fun _ => 9) ((mkShmemq 2 1 64).element_size : ℤ)).ok = false ∧
    (∀ m pl len,
      (shmemq_try_enqueue (mkShmemq 2 1 64) m pl len).ok = false →
      (shmemq_try_enqueue (mkShmemq 2 1 64) m pl len).mem = m) ∧
    (∀ m o len,
      (shmemq_try_dequeue (mkShmemq 2 1 64) m o len).ok = false →
      (shmemq_try_dequeue (mkShmemq 2 1 64) m o len).mem = m) ∧
    (shmemq_try_dequeue (mkShmemq 2 1 64)
        ((enqIter (mkShmemq 2 1 64) fun _ => 9)^[(mkShmemq 2 1 64).max_count]
          (freshInfo fun _ => 0))
        (fun _ => 0) ((mkShmemq 2 1 64).element_size : ℤ)).ok = true ∧
    (shmemq_try_enqueue (mkShmemq 2 1 64)
        (shmemq_try_dequeue (mkShmemq 2 1 64)
            ((enqIter (mkShmemq 2 1 64) fun _ => 9)^[(mkShmemq 2 1 64).max_count]
              (freshInfo fun _ => 0))
            (fun _ => 0) ((mkShmemq 2 1 64).element_size : ℤ)).mem
        (fun _ => 9) ((mkShmemq 2 1 64).element_size : ℤ)).ok = true) :=
  ⟨by decide, by decide,
   c2_capacity_invariant (mkShmemq 2 1 64) (by decide) (by decide)
     (fun _ => 0) (fun _ => 9)⟩

/-! ### Reachable states: operation sequences and the index invariant -/

/-- One queue operation as issued by a caller: an enqueue of some payload or
a dequeue, each declaring a length. -/
inductive QOp
  | enq (p : ℕ → ℕ) (len : ℤ)
  | deq (len : ℤ)

/-- Effect of one operation on the shared header (the dequeue's output
buffer does not influence the header). -/
def qstep (q : Shmemq) (m : ShmemqInfo) : QOp → ShmemqInfo
  | QOp.enq p len => (shmemq_try_enqueue q m p len).mem
  | QOp.deq len => (shmemq_try_dequeue q m (fun _ => 0) len).mem

/-- The header state after a sequence of operations. -/
def runOps (q : Shmemq) (m : ShmemqInfo) (ops : List QOp) : ShmemqInfo :=
  ops.foldl (qstep q) m

theorem enqueue_badlen (q : Shmemq) (m : ShmemqInfo) (p : ℕ → ℕ) (len : ℤ)
    (h : intToUInt len ≠ q.element_size) :
    shmemq_try_enqueue q m p len =
      { ok := false, mem := m, lockTaken := false } := by
  unfold shmemq_try_enqueue
  rw [if_pos h]

theorem dequeue_badlen (q : Shmemq) (m : ShmemqInfo) (out : ℕ → ℕ)
    (len : ℤ) (h : intToUInt len ≠ q.element_size) :
    shmemq_try_dequeue q m out len =
      { ok := false, mem := m, out := out, lockTaken := false } := by
  unfold shmemq_try_dequeue
  rw [if_pos h]

theorem enqueue_full_general (q : Shmemq) (m : ShmemqInfo) (p : ℕ → ℕ)
    (len : ℤ) (hlen : intToUInt len = q.element_size)
    (h : q.max_size ≤ usub64 m.write_index m.read_index) :
    shmemq_try_enqueue q m p len =
      { ok := false, mem := m, lockTaken := true } := by
  unfold shmemq_try_enqueue
  rw [if_neg (fun hh => hh hlen), if_pos h]

theorem dequeue_empty_general (q : Shmemq) (m : ShmemqInfo) (out : ℕ → ℕ)
    (len : ℤ) (hlen : intToUInt len = q.element_size)
    (h : m.write_index ≤ m.read_index) :
    shmemq_try_dequeue q m out len =
      { ok := false, mem := m, out := out, lockTaken := true } := by
  unfold shmemq_try_dequeue
  rw [if_neg (fun hh => hh hlen), if_pos h]

theorem enqueue_mem_indices (q : Shmemq) (m : ShmemqInfo) (p : ℕ → ℕ)
    (len : ℤ) (hlen : intToUInt len = q.element_size)
    (h : usub64 m.write_index m.read_index < q.max_size) :
    (shmemq_try_enqueue q m p len).mem.read_index = m.read_index ∧
    (shmemq_try_enqueue q m p len).mem.write_index =
      wadd64 m.write_index q.element_size ∧
    (shmemq_try_enqueue q m p len).ok = true := by
  unfold shmemq_try_enqueue
  rw [if_neg (fun hh => hh hlen), if_neg (not_le_of_lt h)]
  exact ⟨rfl, rfl, rfl⟩

theorem dequeue_mem_indices (q : Shmemq) (m : ShmemqInfo) (out : ℕ → ℕ)
    (len : ℤ) (hlen : intToUInt len = q.element_size)
    (h : m.read_index < m.write_index) :
    (shmemq_try_dequeue q m out len).mem.read_index =
      wadd64 m.read_index q.element_size ∧
    (shmemq_try_dequeue q m out len).mem.write_index = m.write_index ∧
    (shmemq_try_dequeue q m out len).ok = true := by
  unfold shmemq_try_dequeue
  rw [if_neg (fun hh => hh hlen), if_neg (not_le_of_lt h)]
  exact ⟨rfl, rfl, rfl⟩

theorem enqueue_ok_false_iff (q : Shmemq) (m : ShmemqInfo) (p : ℕ → ℕ)
    (heU : q.element_size < U32) :
    (shmemq_try_enqueue q m p (q.element_size : ℤ)).ok = false ↔
      q.max_size ≤ usub64 m.write_index m.read_index := by
  unfold shmemq_try_enqueue
  rw [intToUInt_coe _ heU, if_neg (fun hh => hh rfl)]
  by_cases h : q.max_size ≤ usub64 m.write_index m.read_index
  · rw [if_pos h]; simpa using h
  · rw [if_neg h]; simpa using h

theorem dequeue_ok_false_iff (q : Shmemq) (m : ShmemqInfo) (out : ℕ → ℕ)
    (heU : q.element_size < U32) :
    (shmemq_try_dequeue q m out (q.element_size : ℤ)).ok = false ↔
      m.write_index ≤ m.read_index := by
  unfold shmemq_try_dequeue
  rw [intToUInt_coe _ heU, if_neg (fun hh => hh rfl)]
  by_cases h : m.write_index ≤ m.read_index
  · rw [if_pos h]; simpa using h
  · rw [if_neg h]; simpa using h

/-- The machine subtraction of the (possibly wrapped) 64-bit images of two
true counters recovers their true difference, as long as that difference
fits in 64 bits. -/
theorem usub64_mod (R Wt : ℕ) (h : R ≤ Wt) (hd : Wt - R < W64) :
    usub64 (Wt % W64) (R % W64) = Wt - R := by
  unfold usub64 W64 at *
  omega

/-- Between two multiples of `e`, strict inequality leaves room for one more
`e`. -/
theorem dvd_lt_add_le (e a b : ℕ) (hdvda : e ∣ a) (hdvdb : e ∣ b)
    (h : a < b) : a + e ≤ b := by
  obtain ⟨x, rfl⟩ := hdvda
  obtain ⟨y, rfl⟩ := hdvdb
  have hxy : x < y := by
    by_contra hc
    push_neg at hc
    exact absurd (Nat.mul_le_mul_left e hc) (not_le_of_lt h)
  calc e * x + e = e * (x + 1) := by ring
    _ ≤ e * y := Nat.mul_le_mul_left e (by omega)

/-- Ghost abstraction: every reachable header state is the 64-bit image of a
pair of true (unbounded) byte counters `R ≤ Wt`, both multiples of
`element_size`, whose difference never exceeds `max_size`; the total growth
of `Wt` is bounded by one element per operation. -/
theorem runOps_ghost (q : Shmemq) (hwf : QWF q) :
    ∀ (ops : List QOp) (m : ShmemqInfo) (R Wt : ℕ),
      m.read_index = R % W64 → m.write_index = Wt % W64 →
      R ≤ Wt → Wt - R ≤ q.max_size →
      q.element_size ∣ R → q.element_size ∣ Wt →
      ∃ R2 Wt2 : ℕ,
        (runOps q m ops).read_index = R2 % W64 ∧
        (runOps q m ops).write_index = Wt2 % W64 ∧
        R2 ≤ Wt2 ∧ Wt2 - R2 ≤ q.max_size ∧
        q.element_size ∣ R2 ∧ q.element_size ∣ Wt2 ∧
        R ≤ R2 ∧ Wt ≤ Wt2 ∧
        Wt2 ≤ Wt + ops.length * q.element_size := by
  obtain ⟨he, heU, hsz, hszW⟩ := hwf
  have hdvdms : q.element_size ∣ q.max_size := by
    rw [hsz]; exact dvd_mul_left _ _
  intro ops
  induction ops with
  | nil =>
    intro m R Wt hr hw hRW hd hdR hdW
    exact ⟨R, Wt, hr, hw, hRW, hd, hdR, hdW, le_refl _, le_refl _, by simp⟩
  | cons op rest ih =>
    intro m R Wt hr hw hRW hd hdR hdW
    have hrun : runOps q m (op :: rest) = runOps q (qstep q m op) rest := rfl
    have hlen1 : (op :: rest).length * q.element_size =
        rest.length * q.element_size + q.element_size := by
      simp [List.length_cons]; ring
    cases op with
    | enq p len =>
      by_cases hlen : intToUInt len = q.element_size
      · by_cases hfull : q.max_size ≤ usub64 m.write_index m.read_index
        · have hmem : (shmemq_try_enqueue q m p len).mem = m := by
            rw [enqueue_full_general q m p len hlen hfull]
          obtain ⟨R2, Wt2, h1, h2, h3, h4, h5, h6, h7, h8, h9⟩ :=
            ih m R Wt hr hw hRW hd hdR hdW
          refine ⟨R2, Wt2, ?_, ?_, h3, h4, h5, h6, h7, h8, by omega⟩
          · rw [hrun]; show (runOps q (shmemq_try_enqueue q m p len).mem
              rest).read_index = R2 % W64; rw [hmem]; exact h1
          · rw [hrun]; show (runOps q (shmemq_try_enqueue q m p len).mem
              rest).write_index = Wt2 % W64; rw [hmem]; exact h2
        · push_neg at hfull
          obtain ⟨hir, hiw, -⟩ := enqueue_mem_indices q m p len hlen hfull
          have husb : usub64 m.write_index m.read_index = Wt - R := by
            rw [hr, hw]; exact usub64_mod R Wt hRW (by omega)
          have hfull' : Wt - R < q.max_size := by rw [husb] at hfull; exact hfull
          have hstep : Wt + q.element_size - R ≤ q.max_size := by
            have := dvd_lt_add_le q.element_size (Wt - R) q.max_size
              (Nat.dvd_sub' hdW hdR) hdvdms hfull'
            omega
          obtain ⟨R2, Wt2, h1, h2, h3, h4, h5, h6, h7, h8, h9⟩ :=
            ih (qstep q m (QOp.enq p len)) R (Wt + q.element_size)
              (by show (shmemq_try_enqueue q m p len).mem.read_index = R % W64
                  rw [hir, hr])
              (by show (shmemq_try_enqueue q m p len).mem.write_index =
                    (Wt + q.element_size) % W64
                  rw [hiw, hw]
                  unfold wadd64
                  rw [Nat.mod_add_mod])
              (by omega) hstep hdR (Dvd.dvd.add hdW (dvd_refl _))
          exact ⟨R2, Wt2, h1, h2, h3, h4, h5, h6, by omega, by omega,
            by omega⟩
      · have hmem : (shmemq_try_enqueue q m p len).mem = m := by
          rw [enqueue_badlen q m p len hlen]
        obtain ⟨R2, Wt2, h1, h2, h3, h4, h5, h6, h7, h8, h9⟩ :=
          ih m R Wt hr hw hRW hd hdR hdW
        refine ⟨R2, Wt2, ?_, ?_, h3, h4, h5, h6, h7, h8, by omega⟩
        · rw [hrun]; show (runOps q (shmemq_try_enqueue q m p len).mem
            rest).read_index = R2 % W64; rw [hmem]; exact h1
        · rw [hrun]; show (runOps q (shmemq_try_enqueue q m p len).mem
            rest).write_index = Wt2 % W64; rw [hmem]; exact h2
    | deq len =>
      by_cases hlen : intToUInt len = q.element_size
      · by_cases hempty : m.write_index ≤ m.read_index
        · have hmem : (shmemq_try_dequeue q m (fun _ => 0) len).mem = m := by
            rw [dequeue_empty_general q m (fun _ => 0) len hlen hempty]
          obtain ⟨R2, Wt2, h1, h2, h3, h4, h5, h6, h7, h8, h9⟩ :=
            ih m R Wt hr hw hRW hd hdR hdW
          refine ⟨R2, Wt2, ?_, ?_, h3, h4, h5, h6, h7, h8, by omega⟩
          · rw [hrun]; show (runOps q (shmemq_try_dequeue q m (fun _ => 0)
              len).mem rest).read_index = R2 % W64; rw [hmem]; exact h1
          · rw [hrun]; show (runOps q (shmemq_try_dequeue q m (fun _ => 0)
              len).mem rest).write_index = Wt2 % W64; rw [hmem]; exact h2
        · push_neg at hempty
          obtain ⟨hir, hiw, -⟩ :=
            dequeue_mem_indices q m (fun _ => 0) len hlen hempty
          have hRWne : R ≠ Wt := by
            intro hc
            rw [hr, hw, hc] at hempty
            exact lt_irrefl _ hempty
          have hRWlt : R < Wt := lt_of_le_of_ne hRW hRWne
          have hRe : R + q.element_size ≤ Wt :=
            dvd_lt_add_le q.element_size R Wt hdR hdW hRWlt
          obtain ⟨R2, Wt2, h1, h2, h3, h4, h5, h6, h7, h8, h9⟩ :=
            ih (qstep q m (QOp.deq len)) (R + q.element_size) Wt
              (by show (shmemq_try_dequeue q m (fun _ => 0)
                    len).mem.read_index = (R + q.element_size) % W64
                  rw [hir, hr]
                  unfold wadd64
                  rw [Nat.mod_add_mod])
              (by show (shmemq_try_dequeue q m (fun _ => 0)
                    len).mem.write_index = Wt % W64
                  rw [hiw, hw])
              hRe (by omega) (Dvd.dvd.add hdR (dvd_refl _)) hdW
          exact ⟨R2, Wt2, h1, h2, h3, h4, h5, h6, by omega, h8, by omega⟩
      · have hmem : (shmemq_try_dequeue q m (fun _ => 0) len).mem = m := by
          rw [dequeue_badlen q m (fun _ => 0) len hlen]
        obtain ⟨R2, Wt2, h1, h2, h3, h4, h5, h6, h7, h8, h9⟩ :=
          ih m R Wt hr hw hRW hd hdR hdW
        refine ⟨R2, Wt2, ?_, ?_, h3, h4, h5, h6, h7, h8, by omega⟩
        · rw [hrun]; show (runOps q (shmemq_try_dequeue q m (fun _ => 0)
            len).mem rest).read_index = R2 % W64; rw [hmem]; exact h1
        · rw [hrun]; show (runOps q (shmemq_try_dequeue q m (fun _ => 0)
            len).mem rest).write_index = Wt2 % W64; rw [hmem]; exact h2

/-! ### Claim C4: the index-difference invariant -/

/-- C4 (amended): in every state reachable from a fresh segment,
`write_index - read_index` (wraparound-correct 64-bit subtraction) lies in
`[0, max_size]`; a correct-length enqueue returns false exactly when the
difference equals `max_size`; a correct-length dequeue returns false exactly
when `read_index ≥ write_index` as 64-bit values — a condition that is
implied by, but (once a counter has wrapped past `2^64`) not equivalent to,
the difference being 0. -/
theorem c4_diff_invariant (q : Shmemq) (hwf : QWF q) (d0 p : ℕ → ℕ)
    (ops : List QOp) :
    usub64 (runOps q (freshInfo d0) ops).write_index
        (runOps q (freshInfo d0) ops).read_index ≤ q.max_size ∧
    ((shmemq_try_enqueue q (runOps q (freshInfo d0) ops) p
        (q.element_size : ℤ)).ok = false ↔
      usub64 (runOps q (freshInfo d0) ops).write_index
        (runOps q (freshInfo d0) ops).read_index = q.max_size) ∧
    ((shmemq_try_dequeue q (runOps q (freshInfo d0) ops) (fun _ => 0)
        (q.element_size : ℤ)).ok = false ↔
      (runOps q (freshInfo d0) ops).write_index ≤
        (runOps q (freshInfo d0) ops).read_index) ∧
    (usub64 (runOps q (freshInfo d0) ops).write_index
        (runOps q (freshInfo d0) ops).read_index = 0 →
      (shmemq_try_dequeue q (runOps q (freshInfo d0) ops) (fun _ => 0)
        (q.element_size : ℤ)).ok = false) := by
  obtain ⟨he, heU, hsz, hszW⟩ := hwf
  obtain ⟨R2, Wt2, h1, h2, h3, h4, h5, h6, -, -, -⟩ :=
    runOps_ghost q ⟨he, heU, hsz, hszW⟩ ops (freshInfo d0) 0 0
      (by simp [freshInfo]) (by simp [freshInfo]) (le_refl 0) (by simp)
      (dvd_zero _) (dvd_zero _)
  have husb : usub64 (runOps q (freshInfo d0) ops).write_index
      (runOps q (freshInfo d0) ops).read_index = Wt2 - R2 := by
    rw [h1, h2]; exact usub64_mod R2 Wt2 h3 (by omega)
  refine ⟨by omega, ?_, ?_, ?_⟩
  · rw [enqueue_ok_false_iff q _ p heU, husb]
    constructor <;> omega
  · exact dequeue_ok_false_iff q _ (fun _ => 0) heU
  · intro h0
    rw [dequeue_ok_false_iff q _ (fun _ => 0) heU]
    rw [husb] at h0
    have hWR : R2 = Wt2 := by omega
    rw [h1, h2, hWR]

/-- Witness for C4 (amended): the empty operation sequence on a fresh
capacity-2 queue. -/
theorem c4_diff_invariant_witness :
    QWF (mkShmemq 2 1 64) ∧
    (usub64 (runOps (mkShmemq 2 1 64) (freshInfo fun _ => 0) []).write_index
        (runOps (mkShmemq 2 1 64) (freshInfo fun _ => 0) []).read_index ≤
      (mkShmemq 2 1 64).max_size ∧
    ((shmemq_try_enqueue (mkShmemq 2 1 64)
        (runOps (mkShmemq 2 1 64) (freshInfo fun _ => 0) []) (fun _ => 9)
        ((mkShmemq 2 1 64).element_size : ℤ)).ok = false ↔
      usub64 (runOps (mkShmemq 2 1 64) (freshInfo fun _ => 0) []).write_index
        (runOps (mkShmemq 2 1 64) (freshInfo fun _ => 0) []).read_index =
        (mkShmemq 2 1 64).max_size) ∧
    ((shmemq_try_dequeue (mkShmemq 2 1 64)
        (runOps (mkShmemq 2 1 64) (freshInfo fun _ => 0) []) (fun _ => 0)
        ((mkShmemq 2 1 64).element_size : ℤ)).ok = false ↔
      (runOps (mkShmemq 2 1 64) (freshInfo fun _ => 0) []).write_index ≤
        (runOps (mkShmemq 2 1 64) (freshInfo fun _ => 0) []).read_index) ∧
    (usub64 (runOps (mkShmemq 2 1 64) (freshInfo fun _ => 0) []).write_index
        (runOps (mkShmemq 2 1 64) (freshInfo fun _ => 0) []).read_index = 0 →
      (shmemq_try_dequeue (mkShmemq 2 1 64)
        (runOps (mkShmemq 2 1 64) (freshInfo fun _ => 0) []) (fun _ => 0)
        ((mkShmemq 2 1 64).element_size : ℤ)).ok = false)) :=
  ⟨by decide,
   c4_diff_invariant (mkShmemq 2 1 64) (by decide) (fun _ => 0)
     (fun _ => 9) []⟩

/-! ### Claim C9: slot alignment and in-bounds copies -/

/-- C9 (amended): provided `max_count * element_size` is computed without
overflow and the operation count keeps the cumulative byte counters below
`2^64` (no counter wraparound), every reachable state has both indices
multiples of `element_size`, `max_size = max_count * element_size`, and both
copy offsets `index % max_size` at least one whole element below
`max_size` — so no payload copy wraps across the end of the array or goes
out of bounds. -/
theorem c9_alignment_invariant (q : Shmemq) (hwf : QWF q)
    (hmc : 0 < q.max_count) (d0 : ℕ → ℕ) (ops : List QOp)
    (hbound : ops.length * q.element_size < W64) :
    q.max_size = q.max_count * q.element_size ∧
    q.element_size ∣ (runOps q (freshInfo d0) ops).read_index ∧
    q.element_size ∣ (runOps q (freshInfo d0) ops).write_index ∧
    (runOps q (freshInfo d0) ops).read_index % q.max_size +
      q.element_size ≤ q.max_size ∧
    (runOps q (freshInfo d0) ops).write_index % q.max_size +
      q.element_size ≤ q.max_size := by
  obtain ⟨he, heU, hsz, hszW⟩ := hwf
  have hmspos : 0 < q.max_size := by rw [hsz]; exact Nat.mul_pos hmc he
  have hdvdms : q.element_size ∣ q.max_size := by
    rw [hsz]; exact dvd_mul_left _ _
  obtain ⟨R2, Wt2, h1, h2, h3, h4, h5, h6, -, -, h9⟩ :=
    runOps_ghost q ⟨he, heU, hsz, hszW⟩ ops (freshInfo d0) 0 0
      (by simp [freshInfo]) (by simp [freshInfo]) (le_refl 0) (by simp)
      (dvd_zero _) (dvd_zero _)
  have hWlt : Wt2 < W64 := by omega
  have hRlt : R2 < W64 := by omega
  have hr : (runOps q (freshInfo d0) ops).read_index = R2 := by
    rw [h1]; exact Nat.mod_eq_of_lt hRlt
  have hw : (runOps q (freshInfo d0) ops).write_index = Wt2 := by
    rw [h2]; exact Nat.mod_eq_of_lt hWlt
  refine ⟨hsz, ?_, ?_, ?_, ?_⟩
  · rw [hr]; exact h5
  · rw [hw]; exact h6
  · rw [hr]
    exact dvd_lt_add_le _ _ _ ((Nat.dvd_mod_iff hdvdms).mpr h5) hdvdms
      (Nat.mod_lt _ hmspos)
  · rw [hw]
    exact dvd_lt_add_le _ _ _ ((Nat.dvd_mod_iff hdvdms).mpr h6) hdvdms
      (Nat.mod_lt _ hmspos)

/-- Witness for C9 (amended): the empty operation sequence on a fresh
capacity-2 queue. -/
theorem c9_alignment_invariant_witness :
    QWF (mkShmemq 2 1 64) ∧ 0 < (mkShmemq 2 1 64).max_count ∧
    ([] : List QOp).length * (mkShmemq 2 1 64).element_size < W64 ∧
    ((mkShmemq 2 1 64).max_size =
      (mkShmemq 2 1 64).max_count * (mkShmemq 2 1 64).element_size ∧
    (mkShmemq 2 1 64).element_size ∣
      (runOps (mkShmemq 2 1 64) (freshInfo fun _ => 0) []).read_index ∧
    (mkShmemq 2 1 64).element_size ∣
      (runOps (mkShmemq 2 1 64) (freshInfo fun _ => 0) []).write_index ∧
    (runOps (mkShmemq 2 1 64) (freshInfo fun _ => 0) []).read_index %
        (mkShmemq 2 1 64).max_size +
      (mkShmemq 2 1 64).element_size ≤ (mkShmemq 2 1 64).max_size ∧
    (runOps (mkShmemq 2 1 64) (freshInfo fun _ => 0) []).write_index %
        (mkShmemq 2 1 64).max_size +
      (mkShmemq 2 1 64).element_size ≤ (mkShmemq 2 1 64).max_size) :=
  ⟨by decide, by decide, by decide,
   c9_alignment_invariant (mkShmemq 2 1 64) (by decide) (by decide)
     (fun _ => 0) [] (by decide)⟩

/-! ### Counter wraparound: a reachable state violating C4 and C9 -/

/-- Queue for the wraparound counterexamples: `max_count = 2`,
`element_size = 3`, so `max_size = 6`; 3 does not divide `2^64`. -/
def wrapQueue : Shmemq := mkShmemq 2 3 64

/-- One producer/consumer round: enqueue one 3-byte element, dequeue it. -/
def wrapPairOps : List QOp := [QOp.enq (fun _ => 0) 3, QOp.deq 3]

/-- `(2^64 - 1) / 3` rounds, advancing both counters to `2^64 - 1`, followed
by one more successful enqueue, which wraps `write_index` to 2. -/
def wrapTrace : List QOp :=
  (List.replicate 6148914691236517205 wrapPairOps).join ++
    [QOp.enq (fun _ => 0) 3]

/-- After `k` enqueue/dequeue rounds from an empty state at counter `v`
(no wraparound yet), both indices equal `v + 3k`. -/
theorem wrapPair_state : ∀ (k : ℕ) (m : ShmemqInfo) (v : ℕ),
    m.read_index = v → m.write_index = v → v + 3 * k < W64 →
    (runOps wrapQueue m ((List.replicate k wrapPairOps).join)).read_index =
      v + 3 * k ∧
    (runOps wrapQueue m ((List.replicate k wrapPairOps).join)).write_index =
      v + 3 * k := by
  intro k
  induction k with
  | zero =>
    intro m v hr hw _
    refine ⟨?_, ?_⟩
    · show m.read_index = v + 3 * 0
      omega
    · show m.write_index = v + 3 * 0
      omega
  | succ k' ihk =>
    intro m v hr hw hbound
    have hvW : v < W64 := by omega
    have hlen3 : intToUInt 3 = wrapQueue.element_size := by decide
    have h1 := enqueue_mem_indices wrapQueue m (fun _ => 0) 3 hlen3
      (by rw [hw, hr, usub64_self v hvW]; decide)
    have hwadd : wadd64 m.write_index wrapQueue.element_size = v + 3 := by
      unfold wadd64
      rw [hw]
      show (v + 3) % W64 = v + 3
      exact Nat.mod_eq_of_lt (by omega)
    have hm1r : (shmemq_try_enqueue wrapQueue m (fun _ => 0)
        3).mem.read_index = v := by rw [h1.1, hr]
    have hm1w : (shmemq_try_enqueue wrapQueue m (fun _ => 0)
        3).mem.write_index = v + 3 := by rw [h1.2.1, hwadd]
    have h2 := dequeue_mem_indices wrapQueue
      (shmemq_try_enqueue wrapQueue m (fun _ => 0) 3).mem (fun _ => 0) 3
      hlen3 (by rw [hm1r, hm1w]; omega)
    have hwadd2 : wadd64 (shmemq_try_enqueue wrapQueue m (fun _ => 0)
        3).mem.read_index wrapQueue.element_size = v + 3 := by
      unfold wadd64
      rw [hm1r]
      show (v + 3) % W64 = v + 3
      exact Nat.mod_eq_of_lt (by omega)
    have hs1r : (runOps wrapQueue m wrapPairOps).read_index = v + 3 := by
      show (shmemq_try_dequeue wrapQueue
          (shmemq_try_enqueue wrapQueue m (fun _ => 0) 3).mem
          (fun _ => 0) 3).mem.read_index = v + 3
      rw [h2.1, hwadd2]
    have hs1w : (runOps wrapQueue m wrapPairOps).write_index = v + 3 := by
      show (shmemq_try_dequeue wrapQueue
          (shmemq_try_enqueue wrapQueue m (fun _ => 0) 3).mem
          (fun _ => 0) 3).mem.write_index = v + 3
      rw [h2.2.1, hm1w]
    obtain ⟨hr2, hw2⟩ := ihk (runOps wrapQueue m wrapPairOps) (v + 3)
      hs1r hs1w (by omega)
    have hfold : runOps wrapQueue m
        ((List.replicate (k' + 1) wrapPairOps).join) =
        runOps wrapQueue (runOps wrapQueue m wrapPairOps)
          ((List.replicate k' wrapPairOps).join) := rfl
    rw [hfold]
    refine ⟨?_, ?_⟩
    · rw [hr2]; omega
    · rw [hw2]; omega

/-- Indices after a `qstep` enqueue whose length passes the check and whose
queue is not full (stated on `qstep` so that uses never need to reduce the
underlying state). -/
theorem qstep_enq_indices (q : Shmemq) (m : ShmemqInfo) (p : ℕ → ℕ)
    (len : ℤ) (hlen : intToUInt len = q.element_size)
    (h : usub64 m.write_index m.read_index < q.max_size) :
    (qstep q m (QOp.enq p len)).read_index = m.read_index ∧
    (qstep q m (QOp.enq p len)).write_index =
      wadd64 m.write_index q.element_size := by
  have h1 := enqueue_mem_indices q m p len hlen h
  exact ⟨h1.1, h1.2.1⟩

/-- The state reached by `wrapTrace`: the read counter sits at `2^64 - 1`
while the write counter has wrapped around to 2 — the queue holds one
element, yet `read_index > write_index`. -/
theorem wrapTrace_final :
    (runOps wrapQueue (freshInfo fun _ => 0) wrapTrace).read_index =
      18446744073709551615 ∧
    (runOps wrapQueue (freshInfo fun _ => 0) wrapTrace).write_index = 2 := by
  obtain ⟨hr1, hw1⟩ := wrapPair_state 6148914691236517205
    (freshInfo fun _ => 0) 0 rfl rfl (by norm_num [W64])
  have hr0 : (runOps wrapQueue (freshInfo fun _ => 0)
      ((List.replicate 6148914691236517205 wrapPairOps).join)).read_index =
      18446744073709551615 := by rw [hr1]
  have hw0 : (runOps wrapQueue (freshInfo fun _ => 0)
      ((List.replicate 6148914691236517205 wrapPairOps).join)).write_index =
      18446744073709551615 := by rw [hw1]
  have hlen3 : intToUInt 3 = wrapQueue.element_size := by decide
  have hLW : (18446744073709551615 : ℕ) < W64 := by norm_num [W64]
  have hfold : runOps wrapQueue (freshInfo fun _ => 0) wrapTrace =
      qstep wrapQueue
        (runOps wrapQueue (freshInfo fun _ => 0)
          ((List.replicate 6148914691236517205 wrapPairOps).join))
        (QOp.enq (fun _ => 0) 3) := by
    unfold wrapTrace runOps
    rw [List.foldl_append, List.foldl_cons, List.foldl_nil]
  have h1 := qstep_enq_indices wrapQueue
    (runOps wrapQueue (freshInfo fun _ => 0)
      ((List.replicate 6148914691236517205 wrapPairOps).join))
    (fun _ => 0) 3 hlen3
    (by rw [hw0, hr0, usub64_self _ hLW]; decide)
  have hwadd : wadd64 (runOps wrapQueue (freshInfo fun _ => 0)
      ((List.replicate 6148914691236517205 wrapPairOps).join)).write_index
      wrapQueue.element_size = 2 := by
    rw [hw0]
    unfold wadd64
    show (18446744073709551615 + 3) % W64 = 2
    norm_num [W64]
  refine ⟨?_, ?_⟩
  · rw [hfold, h1.1, hr0]
  · rw [hfold, h1.2, hwadd]

/-- C4 counterexample: in the reachable wrapped state, the wraparound-correct
difference `write_index - read_index` is 3 (one element is in the queue),
yet the dequeue returns false because the code's test `read_index >=
write_index` compares the wrapped values — refuting the claim that the
difference is 0 exactly when dequeue returns false. -/
theorem c4_counterexample :
    (shmemq_try_dequeue wrapQueue
        (runOps wrapQueue (freshInfo fun _ => 0) wrapTrace)
        (fun _ => 0) 3).ok = false ∧
    usub64 (runOps wrapQueue (freshInfo fun _ => 0) wrapTrace).write_index
        (runOps wrapQueue (freshInfo fun _ => 0) wrapTrace).read_index ≠
      0 := by
  obtain ⟨hr, hw⟩ := wrapTrace_final
  constructor
  · have hD := dequeue_empty_general wrapQueue
      (runOps wrapQueue (freshInfo fun _ => 0) wrapTrace) (fun _ => 0) 3
      (by decide) (by rw [hr, hw]; norm_num)
    rw [hD]
  · rw [hr, hw]
    decide

/-- C9 counterexample: in the reachable wrapped state, `write_index = 2` is
not a multiple of `element_size = 3` — refuting the claim that in every
reachable state both indices are multiples of the element size. -/
theorem c9_counterexample :
    ¬ wrapQueue.element_size ∣
        (runOps wrapQueue (freshInfo fun _ => 0) wrapTrace).write_index := by
  obtain ⟨-, hw⟩ := wrapTrace_final
  rw [hw]
  decide
